import Mathlib

/-!
Verification of the concurrent LLM benchmark harness
(`benchmarks/benchmark_llm.py`): the streaming reader, the request
executor, the worker-pool queue discipline, the percentile computation
and the final report assembly, shallowly embedded over rational
timestamps.
-/

namespace BenchLLM

/-- One streamed fragment (`chunk.choices[0].delta` plus the finish flag):
`content` is the optional new text, `finishReason` marks the terminal chunk. -/
structure Chunk where
  content : Option String
  finishReason : Option String
deriving DecidableEq

/-- Python truthiness of `chunk.choices[0].delta.content`:
`None` and the empty string are falsy. -/
def contentTruthy : Option String → Bool
  | none => false
  | some s => !s.isEmpty

/-- The loop body of `process_stream`: each list entry pairs the arrival
timestamp (`time.time()` observed at that iteration) with the chunk.
On the first chunk the timestamp is recorded; chunks with truthy content
increment the token counter; a chunk with a finish reason breaks the loop. -/
def processStreamLoop (firstTokenTime : Option ℚ) (totalTokens : ℕ) :
    List (ℚ × Chunk) → Option ℚ × ℕ
  | [] => (firstTokenTime, totalTokens)
  | (t, c) :: rest =>
    let ftt := if firstTokenTime.isNone then some t else firstTokenTime
    let tot := if contentTruthy c.content then totalTokens + 1 else totalTokens
    if c.finishReason.isSome then (ftt, tot) else processStreamLoop ftt tot rest

/-- `process_stream(stream)`: returns `(first_token_time, total_tokens)`. -/
def process_stream (chunks : List (ℚ × Chunk)) : Option ℚ × ℕ :=
  processStreamLoop none 0 chunks

/-- The behaviour of the client collaborator during one request: either the
stream is consumed to completion within the timeout (`ok`, with the observed
chunks), or `asyncio.wait_for` raises `TimeoutError` (`timeout`), or some other
exception is raised while issuing or reading the stream (`err`). -/
inductive StreamOutcome where
  | ok (chunks : List (ℚ × Chunk))
  | timeout
  | err (msg : String)
deriving DecidableEq

/-- The tuple `(total_tokens, elapsed_time, tokens_per_second, ttft)`
returned by a successful `make_request`. -/
structure RequestResult where
  total_tokens : ℕ
  elapsed_time : ℚ
  tokens_per_second : ℚ
  ttft : Option ℚ
deriving DecidableEq

/-- Python truthiness of the float-or-None `first_token_time`
(`ttft = ... if first_token_time else None`): falsy when `None` or `0.0`. -/
def timeTruthy : Option ℚ → Bool
  | none => false
  | some t => decide (t ≠ 0)

/-- `make_request(client, model, max_completion_tokens, request_timeout)`:
`start_time` and `end_time` are the two `time.time()` readings, the collaborator
behaviour is the `outcome`. The token cap and timeout only parametrise the
external call, which the outcome abstracts. The Lean function is total: the
`except` clauses of the source are the `timeout`/`err` branches, both mapped
to `none`. -/
def make_request (start_time end_time : ℚ)
    (max_completion_tokens request_timeout : ℕ) :
    StreamOutcome → Option RequestResult
  | .ok chunks =>
    let r := process_stream chunks
    let elapsed_time := end_time - start_time
    let ttft := if timeTruthy r.1 then some (r.1.getD 0 - start_time) else none
    let tokens_per_second := if elapsed_time > 0 then (r.2 : ℚ) / elapsed_time else 0
    some ⟨r.2, elapsed_time, tokens_per_second, ttft⟩
  | .timeout => none
  | .err _ => none

/-- A concrete one-chunk stream used to witness the amended C2 theorem:
its single content-bearing chunk arrives at time 5. -/
def sampleChunks : List (ℚ × Chunk) := [(5, ⟨some "a", some "stop"⟩)]

/-- The result tuple `make_request 1 10 _ _ (.ok sampleChunks)` produces. -/
def sampleResult : RequestResult := ⟨1, 9, 1 / 9, some 4⟩

/-- The virtual index numpy assigns to percentile `p` over `n` samples:
`p / 100 * (n - 1)`. -/
def rankOf (n : ℕ) (p : ℚ) : ℚ := p * ((n : ℚ) - 1) / 100

/-- Linear interpolation between the two nearest ranks of a (sorted) sample
list at virtual index `r`, numpy's default percentile method. -/
def interpAt (s : List ℚ) (r : ℚ) : ℚ :=
  s.getD ⌊r⌋.toNat 0 +
    (r - ⌊r⌋) * (s.getD (min (⌊r⌋.toNat + 1) (s.length - 1)) 0 - s.getD ⌊r⌋.toNat 0)

/-- `numpy.percentile(values, p)`: sort the samples and interpolate linearly
at virtual index `p / 100 * (n - 1)`. -/
def numpy_percentile (values : List ℚ) (p : ℚ) : ℚ :=
  interpAt (values.insertionSort (· ≤ ·)) (rankOf values.length p)

/-- `calculate_percentile(values, percentile, reverse=False)`: `None` on an
empty collection; in reverse mode the `(100 − percentile)`-th percentile,
otherwise the `percentile`-th. -/
def calculate_percentile (values : List ℚ) (percentile : ℚ) (reverse : Bool) : Option ℚ :=
  if values.isEmpty then none
  else if reverse then some (numpy_percentile values (100 - percentile))
  else some (numpy_percentile values percentile)

/-- The result tuple as the report-assembly phase of `main` sees it: a
4-tuple destructured positionally, each slot tested against `None` by the
comprehension filters. The first three slots are built by `make_request`
from always-present values. -/
def toPyTuple (r : RequestResult) : Option ℕ × Option ℚ × Option ℚ × Option ℚ :=
  (some r.total_tokens, some r.elapsed_time, some r.tokens_per_second, r.ttft)

/-- `[tokens for tokens, _, _, _ in results if tokens is not None]`. -/
def tokensList (results : List RequestResult) : List ℕ :=
  (results.map toPyTuple).filterMap (fun t => t.1)

/-- `[elapsed_time for _, elapsed_time, _, _ in results if elapsed_time is not None]`. -/
def latenciesList (results : List RequestResult) : List ℚ :=
  (results.map toPyTuple).filterMap (fun t => t.2.1)

/-- `[tps for _, _, tps, _ in results if tps is not None]`. -/
def tokens_per_second_list (results : List RequestResult) : List ℚ :=
  (results.map toPyTuple).filterMap (fun t => t.2.2.1)

/-- `[ttft for _, _, _, ttft in results if ttft is not None]`. -/
def ttft_list (results : List RequestResult) : List ℚ :=
  (results.map toPyTuple).filterMap (fun t => t.2.2.2)

/-- The report dictionary `main` returns. -/
structure BenchReport where
  model : String
  total_requests : ℕ
  successful_requests : ℕ
  concurrency : ℕ
  request_timeout : ℕ
  max_completion_tokens : ℕ
  total_time : ℚ
  requests_per_second : ℚ
  total_completion_tokens : ℕ
  latency_average : ℚ
  latency_p50 : Option ℚ
  latency_p95 : Option ℚ
  latency_p99 : Option ℚ
  tps_average : ℚ
  tps_p50 : Option ℚ
  tps_p95 : Option ℚ
  tps_p99 : Option ℚ
  ttft_average : ℚ
  ttft_p50 : Option ℚ
  ttft_p95 : Option ℚ
  ttft_p99 : Option ℚ
deriving DecidableEq

/-- The metric-assembly tail of `main` (lines 181–239): wall-clock total,
token sum, guarded requests-per-second, guarded averages, and the three
percentile blocks (the throughput block with `reverse=True`). -/
def computeReport (model : String)
    (num_requests concurrency request_timeout max_completion_tokens : ℕ)
    (results : List RequestResult) (start_time end_time : ℚ) : BenchReport :=
  let total_elapsed_time := end_time - start_time
  let total_tokens := (tokensList results).sum
  let latencies := latenciesList results
  let tps := tokens_per_second_list results
  let ttfts := ttft_list results
  let successful_requests := results.length
  { model := model
    total_requests := num_requests
    successful_requests := successful_requests
    concurrency := concurrency
    request_timeout := request_timeout
    max_completion_tokens := max_completion_tokens
    total_time := total_elapsed_time
    requests_per_second :=
      if total_elapsed_time > 0 then (successful_requests : ℚ) / total_elapsed_time else 0
    total_completion_tokens := total_tokens
    latency_average := if latencies.isEmpty then 0 else latencies.sum / latencies.length
    latency_p50 := calculate_percentile latencies 50 false
    latency_p95 := calculate_percentile latencies 95 false
    latency_p99 := calculate_percentile latencies 99 false
    tps_average := if tps.isEmpty then 0 else tps.sum / tps.length
    tps_p50 := calculate_percentile tps 50 true
    tps_p95 := calculate_percentile tps 95 true
    tps_p99 := calculate_percentile tps 99 true
    ttft_average := if ttfts.isEmpty then 0 else ttfts.sum / ttfts.length
    ttft_p50 := calculate_percentile ttfts 50 false
    ttft_p95 := calculate_percentile ttfts 95 false
    ttft_p99 := calculate_percentile ttfts 99 false }

/-- The environment one request executes against: the two `time.time()`
readings around it and the collaborator's behaviour. -/
structure RequestEnv where
  start_time : ℚ
  end_time : ℚ
  outcome : StreamOutcome

/-- `make_request` under a given request environment. -/
def runRequest (max_completion_tokens request_timeout : ℕ) (e : RequestEnv) :
    Option RequestResult :=
  make_request e.start_time e.end_time max_completion_tokens request_timeout e.outcome

/-- The shared results list after a completed run over tasks `0..N-1`: a
worker appends the executor's tuple exactly when it is not `None` (a Python
4-tuple is always truthy), and absent outcomes are only logged. Listed here
in task order; only its multiset content feeds the metrics. -/
def runResults (env : ℕ → RequestEnv) (max_completion_tokens request_timeout N : ℕ) :
    List RequestResult :=
  (List.range N).filterMap (fun i => runRequest max_completion_tokens request_timeout (env i))

/-- The environment of a whole run: the preflight request's environment and
each task's request environment. -/
structure MainEnv where
  preflight : RequestEnv
  tasks : ℕ → RequestEnv

/-- `preflight_check(client, model)`: one executor call with token cap 16 and
timeout 5; `True` exactly when it returned a result. -/
def preflight_check (env : MainEnv) : Bool :=
  (runRequest 16 5 env.preflight).isSome

/-- The queue contents `main` enqueues before launching workers: the task
indices `0..N-1` in order, then `C` sentinels (`None`). -/
def taskQueue (N C : ℕ) : List (Option ℕ) :=
  (List.range N).map some ++ List.replicate C none

/-- What an execution of `main` does, as observable effects: the entries put
into the task queue, the number of worker tasks created, the number of
executor calls made after the preflight, and the returned report (`none`
models the bare `return` on preflight failure, which happens before any
enqueue or worker creation). -/
structure MainTrace where
  tasks_enqueued : List (Option ℕ)
  workers_launched : ℕ
  requests_issued : ℕ
  report : Option BenchReport
deriving DecidableEq

/-- `main(model, num_requests, concurrency, request_timeout,
max_completion_tokens, ...)`: run the preflight check; on failure return
immediately (nothing enqueued, no workers, no report); otherwise enqueue the
N tasks and C sentinels, run the pool, and assemble the report. -/
def main (model : String)
    (num_requests concurrency request_timeout max_completion_tokens : ℕ)
    (env : MainEnv) (start_time end_time : ℚ) : MainTrace :=
  if preflight_check env then
    let results := runResults env.tasks max_completion_tokens request_timeout num_requests
    { tasks_enqueued := taskQueue num_requests concurrency
      workers_launched := concurrency
      requests_issued := num_requests
      report := some (computeReport model num_requests concurrency request_timeout
        max_completion_tokens results start_time end_time) }
  else
    { tasks_enqueued := [], workers_launched := 0, requests_issued := 0, report := none }

/-- The state of the worker pool: the remaining queue, each worker's
liveness (`true` until it consumes a sentinel and breaks), and the log of
dequeue events `(worker, entry)` in the order they happened. -/
structure PoolState (C : ℕ) where
  queue : List (Option ℕ)
  running : Fin C → Bool
  log : List (Fin C × Option ℕ)

/-- One scheduler step: worker `w`, if still in its loop and the queue is
non-empty, atomically dequeues the head and logs it; dequeuing a sentinel
breaks the worker's loop. (A worker blocked on an empty queue or already
terminated changes nothing.) With `C` workers and a `C`-permit semaphore the
semaphore never blocks, so it is not part of the state. -/
def step {C : ℕ} (s : PoolState C) (w : Fin C) : PoolState C :=
  match s.queue with
  | [] => s
  | item :: rest =>
    if s.running w then
      { queue := rest
        running := fun v => if v = w then item.isSome else s.running v
        log := s.log ++ [(w, item)] }
    else s

/-- The initial pool state of a run with `N` tasks and `C` workers. -/
def initState (N C : ℕ) : PoolState C :=
  { queue := taskQueue N C, running := fun _ => true, log := [] }

/-- Run the pool under a scheduler choice sequence: each entry names the
worker that performs the next dequeue. -/
def runPool (N C : ℕ) (sched : List (Fin C)) : PoolState C :=
  sched.foldl step (initState N C)

/-- The per-worker loop invariant: a worker still in its loop has never
dequeued a sentinel, and no worker ever dequeues a second sentinel. -/
def WorkerInv {C : ℕ} (s : PoolState C) : Prop :=
  ∀ w : Fin C, (s.running w = true → (w, none) ∉ s.log) ∧ s.log.count (w, none) ≤ 1

/-- A run environment whose preflight request times out (used to witness the
failing branch of the preflight gate). -/
def preflightFailEnv : MainEnv :=
  { preflight := ⟨0, 1, .timeout⟩, tasks := fun _ => ⟨0, 1, .timeout⟩ }

/-- A run environment whose every request completes with an empty stream
(used to witness the succeeding branch of the preflight gate). -/
def preflightOkEnv : MainEnv :=
  { preflight := ⟨0, 1, .ok []⟩, tasks := fun _ => ⟨0, 1, .ok []⟩ }

/-- The recorded first-token time of a stream is the arrival time of its first
chunk (the loop sets it on the first iteration, before the content test and
the finish test, and never clears it). -/
theorem processStreamLoop_fst (t0 : ℚ) (tot : ℕ) (chunks : List (ℚ × Chunk)) :
    (processStreamLoop (some t0) tot chunks).1 = some t0 := by
  induction chunks generalizing tot with
  | nil => rfl
  | cons hd tl ih =>
    obtain ⟨t, c⟩ := hd
    simp only [processStreamLoop, Option.isNone_some, Bool.false_eq_true, if_false]
    by_cases hf : c.finishReason.isSome <;> simp [hf, ih]

/-- `process_stream` reports as first-token time exactly the first chunk's
arrival timestamp (absent only for an empty stream). -/
theorem process_stream_fst (chunks : List (ℚ × Chunk)) :
    (process_stream chunks).1 = chunks.head?.map Prod.fst := by
  cases chunks with
  | nil => rfl
  | cons hd tl =>
    obtain ⟨t, c⟩ := hd
    simp only [process_stream, processStreamLoop, Option.isNone_none, if_true, List.head?_cons,
      Option.map_some]
    by_cases hf : c.finishReason.isSome <;>
      simp [hf, processStreamLoop_fst]

/-- C1: the request executor is a total function of the collaborator's
behaviour: a timed-out stream-consumption phase yields `none`, any exception
raised while issuing or reading the stream yields `none`, and a normally
completed stream always yields a populated result tuple — no behaviour of the
collaborator makes `make_request` propagate an exception to its caller. -/
theorem make_request_never_raises (start_time end_time : ℚ)
    (max_completion_tokens request_timeout : ℕ) :
    make_request start_time end_time max_completion_tokens request_timeout .timeout = none
    ∧ (∀ m, make_request start_time end_time max_completion_tokens request_timeout (.err m) = none)
    ∧ (∀ chunks,
        (make_request start_time end_time max_completion_tokens request_timeout
          (.ok chunks)).isSome = true) :=
  ⟨rfl, fun _ => rfl, fun _ => rfl⟩

/-- C2 counterexample: a stream whose only chunk carries empty content and the
finish flag (arriving at time 5, with the request started at time 1 and
finished at time 10) produces zero increments, yet the returned tuple's
time-to-first-increment component is present (4 = 5 − 1): the recorded
timestamp is set by the first chunk regardless of whether it carries content,
so "absent exactly when no increments" fails. -/
theorem ttft_zero_increment_counterexample :
    (make_request 1 10 128 300
        (.ok [(5, ⟨none, some "stop"⟩)])).map RequestResult.total_tokens = some 0
    ∧ (make_request 1 10 128 300
        (.ok [(5, ⟨none, some "stop"⟩)])).map RequestResult.ttft = some (some 4) := by
  constructor <;>
    simp [make_request, process_stream, processStreamLoop, timeTruthy, contentTruthy] <;>
    norm_num

/-- C2 (amended): for a successful request, the time-to-first-increment
component is absent exactly when the stream produced no fragment at all before
measurement or the first fragment's timestamp is zero (Python truthiness of
the recorded float); when present it equals the first fragment's arrival
timestamp minus the request start timestamp. -/
theorem ttft_iff_first_chunk (start_time end_time : ℚ)
    (max_completion_tokens request_timeout : ℕ)
    (chunks : List (ℚ × Chunk)) (r : RequestResult)
    (h : make_request start_time end_time max_completion_tokens request_timeout
        (.ok chunks) = some r) :
    (r.ttft = none ↔
      (chunks.head?.map Prod.fst = none ∨ chunks.head?.map Prod.fst = some 0))
    ∧ (∀ t, chunks.head?.map Prod.fst = some t → t ≠ 0 →
        r.ttft = some (t - start_time)) := by
  simp only [make_request] at h
  obtain rfl := (Option.some.inj h).symm
  simp only [process_stream_fst]
  cases hc : chunks.head?.map Prod.fst with
  | none => simp [timeTruthy]
  | some t =>
    by_cases ht : t = 0
    · subst ht
      simp [timeTruthy]
    · simp [timeTruthy, ht]

/-- Witness for C2 (amended): on `sampleChunks` the request succeeds and its
ttft is present and equals 5 − 1 = 4. -/
theorem ttft_iff_first_chunk_witness :
    (make_request 1 10 128 300 (.ok sampleChunks) = some sampleResult)
    ∧ (sampleResult.ttft = none ↔
        (sampleChunks.head?.map Prod.fst = none ∨
          sampleChunks.head?.map Prod.fst = some 0))
    ∧ (∀ t, sampleChunks.head?.map Prod.fst = some t → t ≠ 0 →
        sampleResult.ttft = some (t - 1)) := by
  have h : make_request 1 10 128 300 (.ok sampleChunks) = some sampleResult := by
    have ha : "a".isEmpty = false := by decide
    simp [make_request, process_stream, processStreamLoop, timeTruthy, contentTruthy,
      sampleChunks, sampleResult, ha]
    norm_num
  exact ⟨h, ttft_iff_first_chunk 1 10 128 300 _ _ h⟩

/-- In a `≤`-sorted sample list, entries are monotone in the index. -/
theorem sorted_getD_mono {s : List ℚ} (hs : List.Sorted (· ≤ ·) s) {i j : ℕ}
    (hij : i ≤ j) (hj : j < s.length) : s.getD i 0 ≤ s.getD j 0 := by
  have hi : i < s.length := lt_of_le_of_lt hij hj
  rw [List.getD_eq_getElem s 0 hi, List.getD_eq_getElem s 0 hj]
  have := hs.rel_get_of_le (a := ⟨i, hi⟩) (b := ⟨j, hj⟩) hij
  simpa using this

/-- For `0 ≤ r`, the rounded-down rank as a rational equals `⌊r⌋`. -/
theorem floor_toNat_cast {r : ℚ} (h0 : 0 ≤ r) : ((⌊r⌋.toNat : ℤ) : ℚ) = (⌊r⌋ : ℚ) := by
  rw [Int.toNat_of_nonneg (Int.floor_nonneg.mpr h0)]

/-- For `0 ≤ r ≤ n − 1`, the lower interpolation index stays below `n`. -/
theorem floor_toNat_le {s : List ℚ} {r : ℚ} (hne : s ≠ []) (h0 : 0 ≤ r)
    (h1 : r ≤ (s.length : ℚ) - 1) : ⌊r⌋.toNat ≤ s.length - 1 := by
  have hpos : 0 < s.length := List.length_pos.mpr hne
  have hfl : ⌊r⌋ ≤ (s.length : ℤ) - 1 := by
    have h2 : r ≤ (((s.length : ℤ) - 1 : ℤ) : ℚ) := by push_cast; linarith
    have h3 := Int.floor_le_floor h2
    rwa [Int.floor_intCast] at h3
  omega

/-- The interpolated value lies between the two bracketing sorted samples. -/
theorem interpAt_between {s : List ℚ} {r : ℚ} (hs : List.Sorted (· ≤ ·) s)
    (hne : s ≠ []) (h0 : 0 ≤ r) (h1 : r ≤ (s.length : ℚ) - 1) :
    s.getD ⌊r⌋.toNat 0 ≤ interpAt s r
    ∧ interpAt s r ≤ s.getD (min (⌊r⌋.toNat + 1) (s.length - 1)) 0 := by
  have hpos : 0 < s.length := List.length_pos.mpr hne
  have hlow : ⌊r⌋.toNat ≤ s.length - 1 := floor_toNat_le hne h0 h1
  have hu_le : min (⌊r⌋.toNat + 1) (s.length - 1) < s.length := by omega
  have hl_le_u : ⌊r⌋.toNat ≤ min (⌊r⌋.toNat + 1) (s.length - 1) := by omega
  have hd : s.getD ⌊r⌋.toNat 0 ≤ s.getD (min (⌊r⌋.toNat + 1) (s.length - 1)) 0 :=
    sorted_getD_mono hs hl_le_u hu_le
  have hf0 : 0 ≤ r - ⌊r⌋ := sub_nonneg.mpr (Int.floor_le r)
  have hf1 : r - ⌊r⌋ ≤ 1 := by linarith [Int.lt_floor_add_one r]
  unfold interpAt
  constructor
  · nlinarith
  · nlinarith

/-- Monotonicity of the interpolation in the virtual index, over a sorted
sample list. -/
theorem interpAt_mono {s : List ℚ} {r r' : ℚ} (hs : List.Sorted (· ≤ ·) s)
    (hne : s ≠ []) (h0 : 0 ≤ r) (hrr : r ≤ r') (h1 : r' ≤ (s.length : ℚ) - 1) :
    interpAt s r ≤ interpAt s r' := by
  have hpos : 0 < s.length := List.length_pos.mpr hne
  have h0' : 0 ≤ r' := le_trans h0 hrr
  have h1r : r ≤ (s.length : ℚ) - 1 := le_trans hrr h1
  rcases eq_or_lt_of_le (Int.floor_le_floor hrr) with hfl | hfl
  · have hlow : ⌊r⌋.toNat ≤ s.length - 1 := floor_toNat_le hne h0 h1r
    have hu_le : min (⌊r⌋.toNat + 1) (s.length - 1) < s.length := by omega
    have hl_le_u : ⌊r⌋.toNat ≤ min (⌊r⌋.toNat + 1) (s.length - 1) := by omega
    have hd : s.getD ⌊r⌋.toNat 0 ≤ s.getD (min (⌊r⌋.toNat + 1) (s.length - 1)) 0 :=
      sorted_getD_mono hs hl_le_u hu_le
    unfold interpAt
    rw [← hfl]
    nlinarith
  · have hstep : ⌊r⌋.toNat + 1 ≤ ⌊r'⌋.toNat := by
      have : 0 ≤ ⌊r⌋ := Int.floor_nonneg.mpr h0
      omega
    have hlow' : ⌊r'⌋.toNat ≤ s.length - 1 := floor_toNat_le hne h0' h1
    calc interpAt s r ≤ s.getD (min (⌊r⌋.toNat + 1) (s.length - 1)) 0 :=
          (interpAt_between hs hne h0 h1r).2
      _ ≤ s.getD ⌊r'⌋.toNat 0 := sorted_getD_mono hs (by omega) (by omega)
      _ ≤ interpAt s r' := (interpAt_between hs hne h0' h1).1

/-- `numpy.percentile` is monotone in the percentile over any non-empty
sample collection. -/
theorem numpy_percentile_mono {values : List ℚ} {p q : ℚ} (hne : values ≠ [])
    (h0 : 0 ≤ p) (hpq : p ≤ q) (hq : q ≤ 100) :
    numpy_percentile values p ≤ numpy_percentile values q := by
  have hs : List.Sorted (· ≤ ·) (values.insertionSort (· ≤ ·)) :=
    List.sorted_insertionSort (· ≤ ·) values
  have hlen : (values.insertionSort (· ≤ ·)).length = values.length :=
    List.length_insertionSort (· ≤ ·) values
  have hne' : values.insertionSort (· ≤ ·) ≠ [] := by
    intro h
    apply hne
    have := hlen
    rw [h] at this
    exact List.eq_nil_of_length_eq_zero this.symm
  have hpos : 0 < values.length := List.length_pos.mpr hne
  have hc : (0 : ℚ) ≤ (values.length : ℚ) - 1 := by
    have : (1 : ℚ) ≤ (values.length : ℚ) := by exact_mod_cast hpos
    linarith
  have hr0 : 0 ≤ rankOf values.length p := by
    unfold rankOf
    positivity
  have hrr : rankOf values.length p ≤ rankOf values.length q := by
    unfold rankOf
    have := mul_le_mul_of_nonneg_right hpq hc
    linarith
  have hr1 : rankOf values.length q ≤ ((values.insertionSort (· ≤ ·)).length : ℚ) - 1 := by
    rw [hlen]
    unfold rankOf
    have := mul_le_mul_of_nonneg_right hq hc
    linarith
  exact interpAt_mono hs hne' hr0 hrr hr1

/-- C5: reverse mode computes the `(100 − p)`-th percentile of the same
samples under the same interpolation, and consequently the throughput block's
reported p99 (computed with `reverse=True`) is the 1st percentile of the raw
throughput distribution. -/
theorem reverse_percentile_complement (values : List ℚ) (p : ℚ) (model : String)
    (num_requests concurrency request_timeout max_completion_tokens : ℕ)
    (results : List RequestResult) (start_time end_time : ℚ) :
    calculate_percentile values p true = calculate_percentile values (100 - p) false
    ∧ (computeReport model num_requests concurrency request_timeout max_completion_tokens
        results start_time end_time).tps_p99 =
      calculate_percentile (tokens_per_second_list results) 1 false := by
  constructor
  · simp [calculate_percentile]
  · show calculate_percentile (tokens_per_second_list results) 99 true = _
    simp [calculate_percentile]
    norm_num

/-- C6: over a fixed non-empty sample collection the reported percentiles are
monotone in the rank — p50 ≤ p95 ≤ p99 in normal mode (latency, ttft), and
p50 ≥ p95 ≥ p99 in reverse mode (throughput). -/
theorem percentile_monotone (values : List ℚ) (hne : values ≠ []) :
    ((calculate_percentile values 50 false).getD 0 ≤
        (calculate_percentile values 95 false).getD 0
      ∧ (calculate_percentile values 95 false).getD 0 ≤
        (calculate_percentile values 99 false).getD 0)
    ∧ ((calculate_percentile values 99 true).getD 0 ≤
        (calculate_percentile values 95 true).getD 0
      ∧ (calculate_percentile values 95 true).getD 0 ≤
        (calculate_percentile values 50 true).getD 0) := by
  have hemp : values.isEmpty = false := by simpa [List.isEmpty_iff] using hne
  simp only [calculate_percentile, hemp, Bool.false_eq_true, if_false, if_true,
    Option.getD_some]
  refine ⟨⟨?_, ?_⟩, ?_, ?_⟩ <;> apply numpy_percentile_mono hne <;> norm_num

/-- Witness for C6 at the concrete sample collection `[1, 2, 3]`. -/
theorem percentile_monotone_witness :
    ([1, 2, 3] : List ℚ) ≠ []
    ∧ (((calculate_percentile [1, 2, 3] 50 false).getD 0 ≤
          (calculate_percentile [1, 2, 3] 95 false).getD 0
        ∧ (calculate_percentile [1, 2, 3] 95 false).getD 0 ≤
          (calculate_percentile [1, 2, 3] 99 false).getD 0)
      ∧ ((calculate_percentile [1, 2, 3] 99 true).getD 0 ≤
          (calculate_percentile [1, 2, 3] 95 true).getD 0
        ∧ (calculate_percentile [1, 2, 3] 95 true).getD 0 ≤
          (calculate_percentile [1, 2, 3] 50 true).getD 0)) :=
  ⟨List.cons_ne_nil _ _, percentile_monotone [1, 2, 3] (List.cons_ne_nil _ _)⟩

/-- C7: `calculate_percentile` on the empty collection is `none` for every
percentile and mode (and, being a total function, never raises); on a
non-empty collection it is the interpolated percentile value. -/
theorem calculate_percentile_empty_guard (p : ℚ) (reverse : Bool) (values : List ℚ) :
    calculate_percentile [] p reverse = none
    ∧ (values ≠ [] →
        calculate_percentile values p reverse =
          some (numpy_percentile values (if reverse then 100 - p else p))) := by
  refine ⟨rfl, fun hne => ?_⟩
  have hemp : values.isEmpty = false := by simpa [List.isEmpty_iff] using hne
  cases reverse <;> simp [calculate_percentile, hemp]

/-- Witness for C7 at percentile 50, normal mode, collection `[2]`. -/
theorem calculate_percentile_empty_guard_witness :
    ([2] : List ℚ) ≠ []
    ∧ calculate_percentile [] 50 false = none
    ∧ calculate_percentile [2] 50 false =
        some (numpy_percentile [2] (if false then 100 - 50 else 50)) :=
  ⟨List.cons_ne_nil _ _, (calculate_percentile_empty_guard 50 false [2]).1,
    (calculate_percentile_empty_guard 50 false [2]).2 (List.cons_ne_nil _ _)⟩

/-- C8: both divisions by an elapsed time are guarded — a successful request
whose elapsed time is not strictly positive reports throughput zero, and a run
whose total elapsed time is not strictly positive reports zero
requests-per-second; both computations are total functions, so neither can
raise a division fault. -/
theorem division_by_elapsed_guarded :
    (∀ (start_time end_time : ℚ) (max_completion_tokens request_timeout : ℕ)
        (chunks : List (ℚ × Chunk)) (r : RequestResult),
      make_request start_time end_time max_completion_tokens request_timeout
          (.ok chunks) = some r →
        r.elapsed_time ≤ 0 → r.tokens_per_second = 0)
    ∧ (∀ (model : String)
        (num_requests concurrency request_timeout max_completion_tokens : ℕ)
        (results : List RequestResult) (start_time end_time : ℚ),
      end_time - start_time ≤ 0 →
        (computeReport model num_requests concurrency request_timeout
            max_completion_tokens results start_time end_time).requests_per_second = 0) := by
  constructor
  · intro st et mct rt chunks r h hle
    simp only [make_request] at h
    obtain rfl := (Option.some.inj h).symm
    dsimp only at hle ⊢
    rw [if_neg (not_lt.mpr hle)]
  · intro model nr c rt mct results st et hle
    simp only [computeReport]
    rw [if_neg (not_lt.mpr hle)]

/-- Witness for C8: a request that starts and ends at time 5 (elapsed exactly
zero) reports throughput 0, and a run measured from 3 to 3 reports zero
requests-per-second. -/
theorem division_by_elapsed_guarded_witness :
    (make_request 5 5 128 300 (.ok [(6, ⟨some "a", none⟩)]) = some ⟨1, 0, 0, some 1⟩)
    ∧ ((⟨1, 0, 0, some 1⟩ : RequestResult).elapsed_time ≤ 0)
    ∧ ((⟨1, 0, 0, some 1⟩ : RequestResult).tokens_per_second = 0)
    ∧ ((3 : ℚ) - 3 ≤ 0)
    ∧ (computeReport "m" 0 0 0 0 [] 3 3).requests_per_second = 0 := by
  have h : make_request 5 5 128 300 (.ok [(6, ⟨some "a", none⟩)]) =
      some ⟨1, 0, 0, some 1⟩ := by
    have ha : "a".isEmpty = false := by decide
    simp [make_request, process_stream, processStreamLoop, timeTruthy, contentTruthy, ha]
    norm_num
  refine ⟨h, by norm_num, ?_, by norm_num, ?_⟩
  · exact division_by_elapsed_guarded.1 5 5 128 300 _ _ h (by norm_num)
  · exact division_by_elapsed_guarded.2 "m" 0 0 0 0 [] 3 3 (by norm_num)

/-- Auxiliary: the length of a `filterMap` is the length of the `filter` by
result presence. -/
theorem length_filterMap_eq_length_filter {α β : Type} (f : α → Option β) (l : List α) :
    (l.filterMap f).length = (l.filter (fun a => (f a).isSome)).length := by
  induction l with
  | nil => rfl
  | cons a l ih => cases h : f a <;> simp [List.filterMap_cons, h, List.filter_cons, ih]

/-- C9: after a completed run over tasks `0..N-1`, the number of collected
results equals the number of executor calls that returned a populated result,
is at most `N`, and together with the number of failed or timed-out calls
(the absent outcomes, which contribute no entry to the sample set) sums to
exactly `N`. -/
theorem successful_requests_invariant (env : ℕ → RequestEnv)
    (max_completion_tokens request_timeout N : ℕ) (model : String) (concurrency : ℕ)
    (start_time end_time : ℚ) :
    (computeReport model N concurrency request_timeout max_completion_tokens
          (runResults env max_completion_tokens request_timeout N)
          start_time end_time).successful_requests =
        ((List.range N).filter
          (fun i => (runRequest max_completion_tokens request_timeout (env i)).isSome)).length
    ∧ (computeReport model N concurrency request_timeout max_completion_tokens
          (runResults env max_completion_tokens request_timeout N)
          start_time end_time).successful_requests ≤
        (computeReport model N concurrency request_timeout max_completion_tokens
          (runResults env max_completion_tokens request_timeout N)
          start_time end_time).total_requests
    ∧ (computeReport model N concurrency request_timeout max_completion_tokens
          (runResults env max_completion_tokens request_timeout N)
          start_time end_time).successful_requests +
        ((List.range N).filter
          (fun i => (runRequest max_completion_tokens request_timeout (env i)).isNone)).length
        = (computeReport model N concurrency request_timeout max_completion_tokens
            (runResults env max_completion_tokens request_timeout N)
            start_time end_time).total_requests := by
  show (runResults env max_completion_tokens request_timeout N).length =
        ((List.range N).filter
          (fun i => (runRequest max_completion_tokens request_timeout (env i)).isSome)).length
    ∧ (runResults env max_completion_tokens request_timeout N).length ≤ N
    ∧ (runResults env max_completion_tokens request_timeout N).length +
        ((List.range N).filter
          (fun i => (runRequest max_completion_tokens request_timeout (env i)).isNone)).length
        = N
  have h1 : (runResults env max_completion_tokens request_timeout N).length =
      ((List.range N).filter
        (fun i => (runRequest max_completion_tokens request_timeout (env i)).isSome)).length :=
    length_filterMap_eq_length_filter _ _
  refine ⟨h1, ?_, ?_⟩
  · rw [h1]
    calc ((List.range N).filter _).length ≤ (List.range N).length :=
          List.length_filter_le _ _
      _ = N := List.length_range N
  · rw [h1]
    have h2 : (fun i => (runRequest max_completion_tokens request_timeout (env i)).isNone) =
        (fun i => !(runRequest max_completion_tokens request_timeout (env i)).isSome) := by
      funext i
      cases runRequest max_completion_tokens request_timeout (env i) <;> rfl
    rw [h2, ← List.length_eq_length_filter_add
      (fun i => (runRequest max_completion_tokens request_timeout (env i)).isSome),
      List.length_range]

/-- C10: every tuple a worker appends has present token-count, elapsed-time
and throughput slots (only ttft may be `None`), so the `is not None` filters
of the report phase discard nothing: the token, latency and throughput sample
lists are plain projections and the latter two have exactly
`successful_requests` (= number of collected results) entries. -/
theorem result_tuples_fully_populated (env : ℕ → RequestEnv)
    (max_completion_tokens request_timeout N : ℕ) (model : String) (concurrency : ℕ)
    (start_time end_time : ℚ) :
    (((runResults env max_completion_tokens request_timeout N).map toPyTuple).all
        (fun t => t.1.isSome && t.2.1.isSome && t.2.2.1.isSome)) = true
    ∧ tokensList (runResults env max_completion_tokens request_timeout N) =
        (runResults env max_completion_tokens request_timeout N).map RequestResult.total_tokens
    ∧ latenciesList (runResults env max_completion_tokens request_timeout N) =
        (runResults env max_completion_tokens request_timeout N).map RequestResult.elapsed_time
    ∧ tokens_per_second_list (runResults env max_completion_tokens request_timeout N) =
        (runResults env max_completion_tokens request_timeout N).map
          RequestResult.tokens_per_second
    ∧ (latenciesList (runResults env max_completion_tokens request_timeout N)).length =
        (computeReport model N concurrency request_timeout max_completion_tokens
          (runResults env max_completion_tokens request_timeout N)
          start_time end_time).successful_requests
    ∧ (tokens_per_second_list (runResults env max_completion_tokens request_timeout N)).length =
        (computeReport model N concurrency request_timeout max_completion_tokens
          (runResults env max_completion_tokens request_timeout N)
          start_time end_time).successful_requests := by
  have hall : ∀ results : List RequestResult,
      ((results.map toPyTuple).all
        (fun t => t.1.isSome && t.2.1.isSome && t.2.2.1.isSome)) = true := by
    intro results
    rw [List.all_eq_true]
    intro t ht
    obtain ⟨r, _, rfl⟩ := List.mem_map.mp ht
    rfl
  have htok : ∀ results : List RequestResult,
      tokensList results = results.map RequestResult.total_tokens := by
    intro results
    induction results with
    | nil => rfl
    | cons r l ih => simp [tokensList, toPyTuple, List.filterMap_cons] at ih ⊢; exact ih
  have hlat : ∀ results : List RequestResult,
      latenciesList results = results.map RequestResult.elapsed_time := by
    intro results
    induction results with
    | nil => rfl
    | cons r l ih => simp [latenciesList, toPyTuple, List.filterMap_cons] at ih ⊢; exact ih
  have htps : ∀ results : List RequestResult,
      tokens_per_second_list results = results.map RequestResult.tokens_per_second := by
    intro results
    induction results with
    | nil => rfl
    | cons r l ih =>
      simp [tokens_per_second_list, toPyTuple, List.filterMap_cons] at ih ⊢; exact ih
  refine ⟨hall _, htok _, hlat _, htps _, ?_, ?_⟩
  · show (latenciesList (runResults env max_completion_tokens request_timeout N)).length =
      (runResults env max_completion_tokens request_timeout N).length
    rw [hlat _, List.length_map]
  · show (tokens_per_second_list
        (runResults env max_completion_tokens request_timeout N)).length =
      (runResults env max_completion_tokens request_timeout N).length
    rw [htps _, List.length_map]

/-- C4: the preflight check gates the whole run — on failure `main` returns
immediately with nothing enqueued, no workers launched, no further request
issued and no report; on success a report is always produced (whatever the
individual request outcomes). -/
theorem preflight_gates_run (model : String)
    (num_requests concurrency request_timeout max_completion_tokens : ℕ)
    (env : MainEnv) (start_time end_time : ℚ) :
    (preflight_check env = false →
      main model num_requests concurrency request_timeout max_completion_tokens env
        start_time end_time = ⟨[], 0, 0, none⟩)
    ∧ (preflight_check env = true →
      ((main model num_requests concurrency request_timeout max_completion_tokens env
          start_time end_time).report.isSome = true
        ∧ (main model num_requests concurrency request_timeout max_completion_tokens env
            start_time end_time).tasks_enqueued = taskQueue num_requests concurrency
        ∧ (main model num_requests concurrency request_timeout max_completion_tokens env
            start_time end_time).workers_launched = concurrency)) := by
  constructor <;> intro h <;> simp [main, h]

/-- Witness for C4: a timing-out preflight aborts the run with an empty trace;
an immediately-completing preflight yields a report. -/
theorem preflight_gates_run_witness :
    (preflight_check preflightFailEnv = false)
    ∧ (main "m" 2 3 300 128 preflightFailEnv 0 9 = ⟨[], 0, 0, none⟩)
    ∧ (preflight_check preflightOkEnv = true)
    ∧ ((main "m" 2 3 300 128 preflightOkEnv 0 9).report.isSome = true) := by
  have hf : preflight_check preflightFailEnv = false := rfl
  have ht : preflight_check preflightOkEnv = true := rfl
  exact ⟨hf, (preflight_gates_run "m" 2 3 300 128 preflightFailEnv 0 9).1 hf, ht,
    ((preflight_gates_run "m" 2 3 300 128 preflightOkEnv 0 9).2 ht).1⟩

/-- A scheduler step moves exactly the queue head (if anything) into the log:
the logged entries followed by the remaining queue are unchanged. -/
theorem step_conservation {C : ℕ} (s : PoolState C) (w : Fin C) :
    (step s w).log.map Prod.snd ++ (step s w).queue =
      s.log.map Prod.snd ++ s.queue := by
  obtain ⟨q, run, log⟩ := s
  cases q with
  | nil => rfl
  | cons item rest =>
    cases hr : run w <;> simp [step, hr]

/-- Along any schedule, the dequeued entries (in order) followed by the
remaining queue are exactly the enqueued task queue. -/
theorem runPool_conservation (N C : ℕ) (sched : List (Fin C)) :
    (runPool N C sched).log.map Prod.snd ++ (runPool N C sched).queue =
      taskQueue N C := by
  unfold runPool
  have h : ∀ s : PoolState C,
      (sched.foldl step s).log.map Prod.snd ++ (sched.foldl step s).queue =
        s.log.map Prod.snd ++ s.queue := by
    induction sched with
    | nil => intro s; rfl
    | cons w tl ih =>
      intro s
      rw [List.foldl_cons, ih, step_conservation]
  simpa [initState] using h (initState N C)

/-- A scheduler step preserves the per-worker invariant. -/
theorem workerInv_step {C : ℕ} (s : PoolState C) (w : Fin C) (h : WorkerInv s) :
    WorkerInv (step s w) := by
  obtain ⟨q, run, log⟩ := s
  cases q with
  | nil => exact h
  | cons item rest =>
    cases hr : run w with
    | false =>
      have hstep : step ⟨item :: rest, run, log⟩ w = ⟨item :: rest, run, log⟩ := by
        simp [step, hr]
      rw [hstep]
      exact h
    | true =>
      have hstep : step ⟨item :: rest, run, log⟩ w =
          ⟨rest, fun v => if v = w then item.isSome else run v, log ++ [(w, item)]⟩ := by
        simp [step, hr]
      rw [hstep]
      intro v
      obtain ⟨h1, h2⟩ := h v
      dsimp only at h1 h2 ⊢
      constructor
      · intro hv hmem
        rcases List.mem_append.mp hmem with hmem | hmem
        · by_cases hvw : v = w
          · exact h1 (by rw [hvw]; exact hr) hmem
          · rw [if_neg hvw] at hv
            exact h1 hv hmem
        · simp only [List.mem_singleton, Prod.mk.injEq] at hmem
          obtain ⟨hvw, hitem⟩ := hmem
          subst hvw
          rw [if_pos rfl, ← hitem] at hv
          exact Bool.false_ne_true hv
      · rw [List.count_append]
        by_cases hcase : ((v, none) : Fin C × Option ℕ) = (w, item)
        · have hvw : v = w := congrArg Prod.fst hcase
          have hz : log.count (v, none) = 0 :=
            List.count_eq_zero.mpr (h1 (by rw [hvw]; exact hr))
          rw [hz, hcase]
          simp
        · have hz : List.count (v, none) [(w, item)] = 0 :=
            List.count_eq_zero.mpr (by simpa using hcase)
          rw [hz]
          omega

/-- The per-worker invariant holds at every reachable pool state. -/
theorem runPool_workerInv (N C : ℕ) (sched : List (Fin C)) :
    WorkerInv (runPool N C sched) := by
  unfold runPool
  have hinit : WorkerInv (initState N C) := by
    intro w
    exact ⟨fun _ => List.not_mem_nil _, Nat.le_of_lt_succ (by simp [initState])⟩
  have h : ∀ s : PoolState C, WorkerInv s → WorkerInv (sched.foldl step s) := by
    induction sched with
    | nil => exact fun s hs => hs
    | cons w tl ih => exact fun s hs => ih _ (workerInv_step s w hs)
  exact h _ hinit

/-- Counting `some i` through the `some`-map is counting `i`. -/
theorem count_map_some (l : List ℕ) (i : ℕ) : (l.map some).count (some i) = l.count i := by
  induction l with
  | nil => rfl
  | cons a l ih => simp [List.count_cons, ih]

/-- The task queue holds each task index `i < N` exactly once. -/
theorem taskQueue_count_some {N : ℕ} (C i : ℕ) (h : i < N) :
    (taskQueue N C).count (some i) = 1 := by
  unfold taskQueue
  rw [List.count_append, count_map_some,
    List.count_eq_one_of_mem (List.nodup_range N) (List.mem_range.mpr h),
    List.count_eq_zero.mpr (by simp [List.mem_replicate])]

/-- The task queue holds exactly `C` sentinels. -/
theorem taskQueue_count_none (N C : ℕ) : (taskQueue N C).count none = C := by
  unfold taskQueue
  rw [List.count_append, List.count_eq_zero.mpr (by simp), List.count_replicate_self,
    Nat.zero_add]

/-- C3: along any schedule that fully drains the queue, the dequeue log is
exactly the enqueued sequence — the `N` task indices in order, then the `C`
sentinels — so each task index is dequeued exactly once and exactly `C`
sentinels are consumed; no worker consumes two sentinels (so the `C`
sentinels go to `C` distinct workers), and a worker that consumed a sentinel
has left its loop. -/
theorem dispatcher_queue_contract (N C : ℕ) (sched : List (Fin C))
    (hdone : (runPool N C sched).queue = []) :
    (runPool N C sched).log.map Prod.snd = taskQueue N C
    ∧ (∀ i, i < N → ((runPool N C sched).log.map Prod.snd).count (some i) = 1)
    ∧ ((runPool N C sched).log.map Prod.snd).count none = C
    ∧ (∀ w : Fin C, (runPool N C sched).log.count (w, none) ≤ 1)
    ∧ (∀ w : Fin C, (w, none) ∈ (runPool N C sched).log →
        (runPool N C sched).running w = false) := by
  have hcons := runPool_conservation N C sched
  rw [hdone, List.append_nil] at hcons
  have hinv := runPool_workerInv N C sched
  refine ⟨hcons, ?_, ?_, fun w => (hinv w).2, ?_⟩
  · intro i hi
    rw [hcons]
    exact taskQueue_count_some C i hi
  · rw [hcons]
    exact taskQueue_count_none N C
  · intro w hmem
    cases hfin : (runPool N C sched).running w with
    | false => rfl
    | true => exact absurd hmem ((hinv w).1 hfin)

/-- Witness for C3: a complete run with `N = 2` tasks, `C = 2` workers and the
round-robin schedule `[0, 1, 0, 1]`. -/
theorem dispatcher_queue_contract_witness :
    (runPool 2 2 [0, 1, 0, 1]).queue = []
    ∧ ((runPool 2 2 [0, 1, 0, 1]).log.map Prod.snd = taskQueue 2 2
      ∧ (∀ i, i < 2 → ((runPool 2 2 [0, 1, 0, 1]).log.map Prod.snd).count (some i) = 1)
      ∧ ((runPool 2 2 [0, 1, 0, 1]).log.map Prod.snd).count none = 2
      ∧ (∀ w : Fin 2, (runPool 2 2 [0, 1, 0, 1]).log.count (w, none) ≤ 1)
      ∧ (∀ w : Fin 2, (w, none) ∈ (runPool 2 2 [0, 1, 0, 1]).log →
          (runPool 2 2 [0, 1, 0, 1]).running w = false)) := by
  have hdone : (runPool 2 2 [0, 1, 0, 1]).queue = [] := by decide
  exact ⟨hdone, dispatcher_queue_contract 2 2 [0, 1, 0, 1] hdone⟩

end BenchLLM
